import Mathlib

/-!
# Verification of the action-items mail-fetch core

A shallow embedding, in Lean 4, of the core of the `action-items` repository:
the Gmail query builder, the message normalizer (header lookup, sender
parsing, date fallback, MIME body decoding), the fetch orchestrator, and the
last-run state store.

Modelling conventions:
* Python strings are Lean `String`s (lists of characters); Python `str.strip`
  and `str.split` are modelled character-exactly at the `List Char` level.
* `datetime` values are modelled as integers (a point on a time line closed
  under subtraction of a day count); `strftime('%Y/%m/%d')` is an abstract
  rendering function `fmt : Int → String` passed as a parameter, and
  `datetime.now()` is an explicit `now` parameter.
* `base64.urlsafe_b64decode(..).decode("utf-8")` is an abstract decoding
  function `dec : String → String` passed as a parameter (the repository
  treats it as an external primitive whose failures propagate).
* `email.utils.parsedate_to_datetime` is an abstract partial parser
  `pd : String → Option Int`, `none` meaning the library raises.
* A raised Python exception is an `Except` error value.
-/

/-- Python exceptions that the modelled code can raise or leave uncaught. -/
inductive PyExc where
  | valueError
  | typeError
  | osError
  | attributeError
deriving DecidableEq, Repr

/-! ## Python string primitives -/

/-- The characters stripped by Python's `str.strip()` with no argument. -/
def pyWhitespace : List Char := [' ', '\t', '\n', '\r', '\x0b', '\x0c']

/-- Strip every leading and trailing character belonging to `cs`
(Python `str.strip(chars)` on a list of characters). -/
def pyStripCharsL (cs : List Char) (l : List Char) : List Char :=
  ((l.dropWhile (· ∈ cs)).reverse.dropWhile (· ∈ cs)).reverse

/-- Python `str.strip()` (default whitespace) on a list of characters. -/
def pyStripL (l : List Char) : List Char := pyStripCharsL pyWhitespace l

/-- Python `str.split(sep)` for a one-character separator, on lists of
characters: `"a<b".split("<") = ["a", "b"]`, `"a".split("<") = ["a"]`. -/
def pySplitChar (sep : Char) : List Char → List (List Char)
  | [] => [[]]
  | c :: rest =>
    let r := pySplitChar sep rest
    if c = sep then [] :: r else (c :: r.headD []) :: r.tail

/-- Python `str.strip()` on a `String`. -/
def pyStrip (s : String) : String := ⟨pyStripL s.data⟩

/-! ## `parse_email_address` (src/email/gmail_client.py, lines 63–87) -/

/-- The core of `parse_email_address`, on lists of characters.
Mirrors:
```
if "<" in header and ">" in header:
    name = header.split("<")[0].strip().strip('"')
    email = header.split("<")[1].split(">")[0].strip()
    return name, email
else:
    email = header.strip()
    return email, email
``` -/
def parseEmailAddressL (header : List Char) : List Char × List Char :=
  if '<' ∈ header ∧ '>' ∈ header then
    (pyStripCharsL ['"'] (pyStripL ((pySplitChar '<' header).getD 0 [])),
     pyStripL ((pySplitChar '>' ((pySplitChar '<' header).getD 1 [])).getD 0 []))
  else
    let e := pyStripL header
    (e, e)

/-- The function `parse_email_address` on `String`s. -/
def parse_email_address (header : String) : String × String :=
  let p := parseEmailAddressL header.data
  (⟨p.1⟩, ⟨p.2⟩)

/-! ## `get_header_value` (lines 90–103) -/

/-- Python `str.lower()` (ASCII case folding, per character). -/
def pyLower (s : String) : String := ⟨s.data.map Char.toLower⟩

/-- Model of `get_header_value`: first case-insensitive match wins, absent header
yields the empty string. Headers are (name, value) pairs. -/
def get_header_value (headers : List (String × String)) (name : String) : String :=
  match headers.find? (fun h => pyLower h.1 = pyLower name) with
  | some h => h.2
  | none => ""

/-! ## The MIME payload tree and `get_email_body` (lines 106–142) -/

/-- A Gmail message payload node: an optional `mimeType` field, an optional
`body.data` field (`bodyData = some d` iff `"body" in payload` and
`"data" in payload["body"]`), and an optional `parts` list (`parts = some l`
iff the `"parts"` key is present). -/
inductive Payload where
  | mk (mimeType : Option String) (bodyData : Option String)
       (parts : Option (List Payload))

/-- The `mimeType` field of a payload node. -/
def Payload.mimeType : Payload → Option String
  | .mk mt _ _ => mt

/-- The `body.data` field of a payload node. -/
def Payload.bodyData : Payload → Option String
  | .mk _ bd _ => bd

/-- The `parts` field of a payload node. -/
def Payload.parts : Payload → Option (List Payload)
  | .mk _ _ ps => ps

mutual

/-- Model of `get_email_body`: if the node carries inline body data, decode and
return it; otherwise, if a `parts` list is present, walk it (starting from
the empty-string HTML fallback); otherwise return the empty string.
`dec` models `base64.urlsafe_b64decode(..).decode("utf-8")`. -/
def get_email_body (dec : String → String) : Payload → String
  | .mk _ (some d) _ => dec d
  | .mk _ none none => ""
  | .mk _ none (some parts) => walkParts dec parts ""
termination_by structural p => p

/-- The `for part in payload["parts"]` loop of `get_email_body`, carrying
the current HTML fallback (`body` in the source):
* a `text/plain` part with data returns its decoded data immediately;
* a `text/html` part with data updates the fallback and the walk continues;
* a part with a `parts` key is recursed into (`get_email_body(part)`), and a
  non-empty recursive result is returned immediately;
* when the list is exhausted the fallback is returned. -/
def walkParts (dec : String → String) : List Payload → String → String
  | [], fallback => fallback
  | part :: rest, fallback =>
    if part.mimeType.getD "" = "text/plain" ∧ part.bodyData.isSome then
      dec (part.bodyData.getD "")
    else
      let fallback' :=
        if part.mimeType.getD "" = "text/html" ∧ part.bodyData.isSome then
          dec (part.bodyData.getD "")
        else fallback
      match part.parts with
      | some _ =>
        let nested := get_email_body dec part
        if nested ≠ "" then nested else walkParts dec rest fallback'
      | none => walkParts dec rest fallback'
termination_by structural l _ => l

end

/-! ## `build_query` (lines 12–60)

`datetime` values are integers; `strftime('%Y/%m/%d')` is the abstract
`fmt`; `datetime.now()` is the explicit `now`; `timedelta(days=d)`
subtraction is integer subtraction. -/

/-- Python truthiness of an `Optional[int]`: `None` and `0` are falsy. -/
def pyTruthyOptInt : Option Int → Bool
  | none => false
  | some n => n != 0

/-- Python truthiness of an `Optional[list]`: `None` and `[]` are falsy. -/
def pyTruthyOptList : Option (List String) → Bool
  | none => false
  | some l => !l.isEmpty

/-- The `query_parts` list built by `build_query` just before joining:
the unread term, then the date terms (`days` truthy ⇒ a single
`after:(now - days)` term; otherwise an `after:` term if `after` is set and
a `before:` term if `before` is set), then one `label:` term per label. -/
def build_query_parts (fmt : Int → String) (now : Int)
    (after before : Option Int) (days : Option Int)
    (unread_only : Bool) (labels : Option (List String)) : List String :=
  (if unread_only then ["is:unread"] else []) ++
  (if pyTruthyOptInt days then
    ["after:" ++ fmt (now - days.getD 0)]
  else
    (match after with
     | some a => ["after:" ++ fmt a]
     | none => []) ++
    (match before with
     | some b => ["before:" ++ fmt b]
     | none => [])) ++
  (if pyTruthyOptList labels then
    (labels.getD []).map (fun l => "label:" ++ l)
  else [])

/-- Model of `build_query`: the space-join of `query_parts`. -/
def build_query (fmt : Int → String) (now : Int)
    (after before : Option Int) (days : Option Int)
    (unread_only : Bool) (labels : Option (List String)) : String :=
  " ".intercalate (build_query_parts fmt now after before days unread_only labels)

/-! ## The `Email` dataclass (src/email/models.py) -/

/-- The `Email` dataclass: the normalized message record. `date` is a time point
(modelled as `Int`). -/
structure Email where
  id : String
  thread_id : String
  subject : String
  sender : String
  sender_email : String
  recipient : String
  date : Int
  snippet : String
  body : String
  labels : List String
  is_unread : Bool
deriving DecidableEq, Repr

/-- A raw provider message record as returned by the get-message operation
(`format="full"`): id, thread id, the header list of the payload, the
payload body tree, the snippet, and the label ids (`.get` defaults for the
last two are folded into the fields). -/
structure RawMsg where
  id : String
  threadId : String
  headers : List (String × String)
  payload : Payload
  snippet : String
  labelIds : List String

/-! ## The per-message normalization step of `fetch_emails` (lines 194–223) -/

/-- The loop body of `fetch_emails` that turns one raw message into an
`Email`:
* header extraction via `get_header_value`;
* sender split via `parse_email_address`;
* `date = parsedate_to_datetime(date_header) if date_header else
  datetime.now()` — an empty (missing) Date header falls back to `now`, a
  present header is handed to the parser `pd`, whose failure raises
  `ValueError` (uncaught: the error propagates);
* body via `get_email_body`;
* `subject or "(No subject)"` placeholder; `is_unread` from membership of
  `"UNREAD"` in the label ids. -/
def normalizeMessage (pd : String → Option Int) (dec : String → String)
    (now : Int) (m : RawMsg) : Except PyExc Email :=
  let subject := get_header_value m.headers "Subject"
  let from_header := get_header_value m.headers "From"
  let to_header := get_header_value m.headers "To"
  let date_header := get_header_value m.headers "Date"
  let sender := parse_email_address from_header
  match (if date_header ≠ "" then (pd date_header).elim (.error .valueError) .ok
         else .ok now : Except PyExc Int) with
  | .error e => .error e
  | .ok date =>
    .ok { id := m.id
          thread_id := m.threadId
          subject := if subject = "" then "(No subject)" else subject
          sender := sender.1
          sender_email := sender.2
          recipient := to_header
          date := date
          snippet := m.snippet
          body := get_email_body dec m.payload
          labels := m.labelIds
          is_unread := m.labelIds.contains "UNREAD" }

/-! ## `fetch_emails` (lines 145–226) -/

/-- The hydration loop of `fetch_emails`: for each id, in order, call
get-message and normalize. Returns the outcome (the ordered `Email` list,
or the first raised exception) together with the list of ids actually
passed to the get-message operation, in call order. -/
def hydrateLoop (pd : String → Option Int) (dec : String → String) (now : Int)
    (getMessage : String → RawMsg) :
    List String → Except PyExc (List Email) × List String
  | [] => (.ok [], [])
  | msgId :: rest =>
    match normalizeMessage pd dec now (getMessage msgId) with
    | .error e => (.error e, [msgId])
    | .ok em =>
      let r := hydrateLoop pd dec now getMessage rest
      (r.1.map (em :: ·), msgId :: r.2)

/-- The observable outcome of one `fetch_emails` call: the query string
passed to the provider's list-messages operation, the ids passed to the
get-message operation (in call order), and the returned list of normalized
messages or the raised exception. -/
structure FetchOutcome where
  query : String
  getCalls : List String
  result : Except PyExc (List Email)
deriving Repr

/-- Model of `fetch_emails`, against an abstract mail provider
(`listMessages query max_results` and `getMessage id`): build the query,
list the message ids, return `[]` immediately when none are found, and
otherwise hydrate each id in the provider's order. -/
def fetch_emails (fmt : Int → String) (pd : String → Option Int)
    (dec : String → String) (now : Int)
    (listMessages : String → Int → List String)
    (getMessage : String → RawMsg)
    (after before : Option Int) (days : Option Int)
    (unread_only : Bool) (labels : Option (List String))
    (max_results : Int) : FetchOutcome :=
  let query := build_query fmt now after before days unread_only labels
  let messages := listMessages query max_results
  if messages.isEmpty then
    { query := query, getCalls := [], result := .ok [] }
  else
    let r := hydrateLoop pd dec now getMessage messages
    { query := query, getCalls := r.2, result := r.1 }

/-- A call of `fetch_emails(after=a)` with every other parameter left at
its source default: `before=None`, `days=7` (the signature default),
`unread_only=True`, `labels=None`, `max_results=100`. -/
def fetch_emails_after_only (fmt : Int → String) (pd : String → Option Int)
    (dec : String → String) (now : Int)
    (listMessages : String → Int → List String)
    (getMessage : String → RawMsg) (a : Int) : FetchOutcome :=
  fetch_emails fmt pd dec now listMessages getMessage
    (some a) none (some 7) true none 100

/-! ## The last-run state store (src/utils/state.py)

`datetime` values here are identified with their epoch value
(`datetime.timestamp()`), modelled as `ℚ` (a stand-in for the Python
float); `datetime.fromtimestamp` is then the identity. The store file is
modelled by its observable content. -/

/-- A JSON value as far as the state file is concerned. -/
inductive JVal where
  | jnull
  | jbool (b : Bool)
  | jnum (q : ℚ)
  | jstr (s : String)
deriving DecidableEq, Repr

/-- Python truthiness of a decoded JSON value. -/
def pyTruthyJVal : JVal → Bool
  | .jnull => false
  | .jbool b => b
  | .jnum q => q != 0
  | .jstr s => s != ""

/-- The observable state of the `.last_run.json` marker file. -/
inductive FileState where
  | absent
  | unreadable
  | invalidJson
  | nonObjectJson
  | doc (entries : List (String × JVal))
deriving DecidableEq, Repr

/-- Model of `get_last_run`:
* no file ⇒ `None`;
* file exists but `open` raises (`OSError` is not in the `except` clause)
  ⇒ the exception propagates;
* invalid JSON ⇒ `json.JSONDecodeError` is caught ⇒ `None`;
* valid JSON that is not an object ⇒ `data.get` raises `AttributeError`
  (uncaught) ⇒ propagates;
* an object: read `data.get("last_run")`; a missing or falsy value falls
  through to `None`; a truthy number is returned via
  `datetime.fromtimestamp`; a truthy `bool` is the int `1`; any other
  truthy value makes `datetime.fromtimestamp` raise `TypeError`
  (uncaught) ⇒ propagates. -/
def get_last_run (fs : FileState) : Except PyExc (Option ℚ) :=
  match fs with
  | .absent => .ok none
  | .unreadable => .error .osError
  | .invalidJson => .ok none
  | .nonObjectJson => .error .attributeError
  | .doc entries =>
    match entries.lookup "last_run" with
    | none => .ok none
    | some v =>
      if pyTruthyJVal v then
        match v with
        | .jnum q => .ok (some q)
        | .jbool _ => .ok (some 1)
        | _ => .error .typeError
      else .ok none

/-- Model of `save_last_run(t)`: write a JSON object holding the epoch value under
`"last_run"` and its ISO rendering (abstract `iso`) under
`"last_run_readable"`. -/
def save_last_run (iso : ℚ → String) (t : ℚ) : FileState :=
  .doc [("last_run", .jnum t), ("last_run_readable", .jstr (iso t))]

/-- Model of `reset_last_run`: delete the state file (a missing file stays
missing). -/
def reset_last_run (_ : FileState) : FileState := .absent

/-! ## Helper lemmas on the Python string primitives -/

theorem pySplitChar_of_not_mem {sep : Char} {l : List Char} (h : sep ∉ l) :
    pySplitChar sep l = [l] := by
  induction l with
  | nil => rfl
  | cons c rest ih =>
    simp only [List.mem_cons, not_or] at h
    have hc : ¬c = sep := fun hc => h.1 hc.symm
    simp [pySplitChar, ih h.2, hc]

theorem pySplitChar_append {sep : Char} {pre : List Char} (rest : List Char)
    (h : sep ∉ pre) :
    pySplitChar sep (pre ++ sep :: rest) = pre :: pySplitChar sep rest := by
  induction pre with
  | nil => simp [pySplitChar]
  | cons c ps ih =>
    simp only [List.mem_cons, not_or] at h
    have hc : ¬c = sep := fun hc => h.1 hc.symm
    simp [pySplitChar, ih h.2, hc]

/-- C9: sender parsing. A header of the shape `pre ++ "<" ++ addr ++ ">"`
(with no `<` in `pre` and no angle bracket in `addr`) parses to the display
name — `pre` stripped of whitespace, then of surrounding double quotes —
paired with the bracketed address stripped of whitespace; a header without
an angle-bracketed address (it does not contain both `<` and `>`) parses to
the whitespace-stripped value as both name and address; in particular
`"John Doe <john@example.com>"` yields `("John Doe", "john@example.com")`
and `"jane@example.com"` yields it twice. -/
theorem c9_sender_parsing :
    (∀ pre addr : List Char, '<' ∉ pre → '<' ∉ addr → '>' ∉ addr →
      parseEmailAddressL (pre ++ '<' :: (addr ++ ['>'])) =
        (pyStripCharsL ['"'] (pyStripL pre), pyStripL addr)) ∧
    (∀ header : List Char, ¬('<' ∈ header ∧ '>' ∈ header) →
      parseEmailAddressL header = (pyStripL header, pyStripL header)) ∧
    parse_email_address "John Doe <john@example.com>" =
      ("John Doe", "john@example.com") ∧
    parse_email_address "jane@example.com" =
      ("jane@example.com", "jane@example.com") := by
  refine ⟨?_, ?_, by decide, by decide⟩
  · intro pre addr h1 h2 h3
    have hin : '<' ∈ pre ++ '<' :: (addr ++ ['>']) ∧
        '>' ∈ pre ++ '<' :: (addr ++ ['>']) := by
      constructor <;> simp
    have hsplit1 : pySplitChar '<' (pre ++ '<' :: (addr ++ ['>'])) =
        pre :: pySplitChar '<' (addr ++ ['>']) := pySplitChar_append _ h1
    have hsplit2 : pySplitChar '<' (addr ++ ['>']) = [addr ++ ['>']] :=
      pySplitChar_of_not_mem (by simp [h2])
    have hsplit3 : pySplitChar '>' (addr ++ ['>']) =
        addr :: pySplitChar '>' [] := pySplitChar_append [] h3
    simp [parseEmailAddressL, hin, hsplit1, hsplit2, hsplit3, pySplitChar]
  · intro header h
    simp [parseEmailAddressL, h]

/-- Witness for C9 at concrete inputs. -/
theorem c9_sender_parsing_witness :
    parseEmailAddressL ("Bob ".data ++ '<' :: ("b@c".data ++ ['>'])) =
      (pyStripCharsL ['"'] (pyStripL "Bob ".data), pyStripL "b@c".data) ∧
    parseEmailAddressL "plain".data =
      (pyStripL "plain".data, pyStripL "plain".data) :=
  ⟨c9_sender_parsing.1 "Bob ".data "b@c".data (by decide) (by decide) (by decide),
   c9_sender_parsing.2.1 "plain".data (by decide)⟩

/-- C4: body decoding preference policy. A node carrying inline body data
returns that data decoded; a multipart node whose only child is an HTML
leaf with data returns the decoded HTML; a multipart node with both a
`text/plain` leaf and a `text/html` leaf with data returns the decoded
plain text whichever order the two are listed in; and a node whose only
content leaf sits two levels of nesting deep returns that nested content. -/
theorem c4_body_preference :
    (∀ (dec : String → String) (mt : Option String) (d : String)
        (pts : Option (List Payload)),
      get_email_body dec (.mk mt (some d) pts) = dec d) ∧
    (∀ (dec : String → String) (mt : Option String) (d : String),
      get_email_body dec
        (.mk mt none (some [.mk (some "text/html") (some d) none])) = dec d) ∧
    (∀ (dec : String → String) (mt : Option String) (dp dh : String),
      get_email_body dec
        (.mk mt none (some [.mk (some "text/plain") (some dp) none,
                            .mk (some "text/html") (some dh) none])) = dec dp ∧
      get_email_body dec
        (.mk mt none (some [.mk (some "text/html") (some dh) none,
                            .mk (some "text/plain") (some dp) none])) = dec dp) ∧
    (∀ (dec : String → String) (mt mtMid : Option String) (d : String),
      get_email_body dec
        (.mk mt none (some [.mk mtMid none
          (some [.mk (some "text/plain") (some d) none])])) = dec d) := by
  refine ⟨?_, ?_, ?_, ?_⟩
  · intro dec mt d pts
    simp [get_email_body]
  · intro dec mt d
    simp [get_email_body, walkParts, Payload.mimeType, Payload.bodyData,
      Payload.parts]
  · intro dec mt dp dh
    constructor <;>
      simp [get_email_body, walkParts, Payload.mimeType, Payload.bodyData,
        Payload.parts]
  · intro dec mt mtMid d
    by_cases hmid : mtMid.getD "" = "text/plain"
    · by_cases hd : dec d = ""
      · simp [get_email_body, walkParts, Payload.mimeType, Payload.bodyData,
          Payload.parts, hmid, hd]
      · simp [get_email_body, walkParts, Payload.mimeType, Payload.bodyData,
          Payload.parts, hmid, hd]
    · by_cases hd : dec d = ""
      · simp [get_email_body, walkParts, Payload.mimeType, Payload.bodyData,
          Payload.parts, hmid, hd]
      · simp [get_email_body, walkParts, Payload.mimeType, Payload.bodyData,
          Payload.parts, hmid, hd]

/-- The HTML-fallback accumulation of the walk, written as a left fold:
each `text/html` child with inline data replaces the remembered fallback. -/
def htmlFold (dec : String → String) (l : List Payload) (fb : String) : String :=
  l.foldl
    (fun acc p =>
      if p.mimeType.getD "" = "text/html" ∧ p.bodyData.isSome then
        dec (p.bodyData.getD "")
      else acc)
    fb

/-- C5: the walk over a multipart child list, in strict list order.
A `text/plain` child with inline data returns its decoded data
immediately; a child with a `parts` key is recursed into and a non-empty
recursive result is returned immediately, winning over the remembered HTML
fallback and all remaining siblings; and a walk in which no child triggers
an early return (no plain-with-data child and every nested recursion is
empty) returns the accumulated HTML fallback, possibly the empty string. -/
theorem c5_walk_policy :
    (∀ (dec : String → String) (d : String) (pts : Option (List Payload))
        (rest : List Payload) (fb : String),
      walkParts dec (Payload.mk (some "text/plain") (some d) pts :: rest) fb =
        dec d) ∧
    (∀ (dec : String → String) (p : Payload) (rest : List Payload)
        (fb : String),
      p.parts.isSome →
      ¬(p.mimeType.getD "" = "text/plain" ∧ p.bodyData.isSome) →
      get_email_body dec p ≠ "" →
      walkParts dec (p :: rest) fb = get_email_body dec p) ∧
    (∀ (dec : String → String) (l : List Payload) (fb : String),
      (∀ p ∈ l, ¬(p.mimeType.getD "" = "text/plain" ∧ p.bodyData.isSome) ∧
        (p.parts.isSome → get_email_body dec p = "")) →
      walkParts dec l fb = htmlFold dec l fb) := by
  refine ⟨?_, ?_, ?_⟩
  · intro dec d pts rest fb
    simp [walkParts, Payload.mimeType, Payload.bodyData]
  · intro dec p rest fb hps hnp hne
    obtain ⟨mt, bd, ps⟩ := p
    obtain ⟨l', hl'⟩ := Option.isSome_iff_exists.mp hps
    simp only [Payload.parts] at hl'
    subst hl'
    simp only [Payload.mimeType, Payload.bodyData] at hnp
    simp [walkParts, Payload.mimeType, Payload.bodyData, Payload.parts,
      hnp, hne]
  · intro dec l
    induction l with
    | nil => intro fb _; simp [walkParts, htmlFold]
    | cons p rest ih =>
      intro fb h
      obtain ⟨hp, hrest⟩ := List.forall_mem_cons.mp h
      obtain ⟨mt, bd, ps⟩ := p
      simp only [Payload.mimeType, Payload.bodyData, Payload.parts] at hp
      cases ps with
      | none =>
        simp only [walkParts, Payload.mimeType, Payload.bodyData,
          Payload.parts, htmlFold, List.foldl_cons]
        rw [if_neg hp.1, ih _ hrest]
        rfl
      | some l' =>
        have hnested : get_email_body dec (Payload.mk mt bd (some l')) = "" :=
          hp.2 (by simp [Payload.parts])
        simp only [walkParts, Payload.mimeType, Payload.bodyData,
          Payload.parts, htmlFold, List.foldl_cons]
        rw [if_neg hp.1, hnested, if_neg (by simp), ih _ hrest]
        rfl

/-- Witness for C5 at concrete inputs. -/
theorem c5_walk_policy_witness :
    walkParts (fun s => s)
      [Payload.mk (some "text/plain") (some "p") none] "" = "p" ∧
    walkParts (fun s => s)
      [Payload.mk none none
        (some [Payload.mk (some "text/plain") (some "n") none])] "f" =
      get_email_body (fun s => s)
        (Payload.mk none none
          (some [Payload.mk (some "text/plain") (some "n") none])) ∧
    walkParts (fun s => s)
      [Payload.mk (some "text/html") (some "h") none] "" =
      htmlFold (fun s => s)
        [Payload.mk (some "text/html") (some "h") none] "" :=
  ⟨c5_walk_policy.1 (fun s => s) "p" none [] "",
   c5_walk_policy.2.1 (fun s => s) _ [] "f" (by decide) (by decide) (by decide),
   c5_walk_policy.2.2 (fun s => s) _ "" (by decide)⟩

/-! ## Date terms in the query -/

/-- A query term is a date term when it starts with `after:` or `before:`. -/
def isDateTerm (t : String) : Bool :=
  "after:".data.isPrefixOf t.data || "before:".data.isPrefixOf t.data

theorem list_isPrefixOf_self_append (l m : List Char) :
    l.isPrefixOf (l ++ m) = true := by
  induction l with
  | nil => simp [List.isPrefixOf]
  | cons c cs ih => simp [List.isPrefixOf, ih]

theorem list_isPrefixOf_cons_ne {a b : Char} (l m : List Char) (h : a ≠ b) :
    (a :: l).isPrefixOf (b :: m) = false := by
  simp [List.isPrefixOf, h]

theorem isDateTerm_after (s : String) : isDateTerm ("after:" ++ s) = true := by
  have e : ("after:" ++ s).data = "after:".data ++ s.data := rfl
  simp [isDateTerm, e, list_isPrefixOf_self_append]

theorem isDateTerm_label (s : String) : isDateTerm ("label:" ++ s) = false := by
  have e : ("label:" ++ s).data = 'l' :: ("abel:" ++ s).data := rfl
  have e1 : "after:".data = 'a' :: "fter:".data := rfl
  have e2 : "before:".data = 'b' :: "efore:".data := rfl
  simp [isDateTerm, e, e1, e2, list_isPrefixOf_cons_ne]

/-- C3 counterexample: with `days = 0` the day-count does not override.
`build_query(after=5, days=0, unread_only=False)` (dates rendered by
`toString`, `now = 100`) emits the query term derived from `after`, and no
term derived from `now - days`. -/
theorem c3_counterexample :
    build_query_parts (fun n => toString n) 100 (some 5) none (some 0) false
        none = ["after:5"] ∧
    ("after:" ++ (fun (n : Int) => toString n) (100 - 0)) ∉
      build_query_parts (fun n => toString n) 100 (some 5) none (some 0) false
        none := by
  constructor
  · rfl
  · decide

/-- C3 (amended): for every filter combination in which the day-count is
set to a nonzero value, the emitted `query_parts` list holds exactly one
date term, the lower bound `after:(now - days)`, and the `after`/`before`
options contribute nothing (the parts list is the one built with both
absent); a day-count of zero is falsy in Python and behaves as unset. -/
theorem c3_days_override :
    ∀ (fmt : Int → String) (now : Int) (a b : Option Int) (n : Int)
      (u : Bool) (ls : Option (List String)),
      n ≠ 0 →
      (build_query_parts fmt now a b (some n) u ls).filter isDateTerm =
        ["after:" ++ fmt (now - n)] ∧
      build_query_parts fmt now a b (some n) u ls =
        build_query_parts fmt now none none (some n) u ls := by
  intro fmt now a b n u ls hn
  have htr : pyTruthyOptInt (some n) = true := by
    simp [pyTruthyOptInt, hn]
  constructor
  · simp only [build_query_parts, htr, if_true, List.filter_append]
    have h1 : (if u then ["is:unread"] else []).filter isDateTerm = [] := by
      cases u
      · rfl
      · decide
    have h2 : (["after:" ++ fmt (now - (some n).getD 0)]).filter isDateTerm =
        ["after:" ++ fmt (now - n)] := by
      simp [List.filter, isDateTerm_after]
    have h3 : (if pyTruthyOptList ls then
        (ls.getD []).map (fun l => "label:" ++ l) else []).filter isDateTerm
        = [] := by
      split
      · rw [List.filter_eq_nil_iff]
        intro t ht
        obtain ⟨l, _, rfl⟩ := List.mem_map.mp ht
        simp [isDateTerm_label]
      · rfl
    rw [h1, h2, h3]
    simp
  · simp [build_query_parts, htr]

/-- Witness for C3 (amended) at concrete inputs. -/
theorem c3_days_override_witness :
    (build_query_parts (fun n => toString n) 100 (some 1) (some 2) (some 7)
        true (some ["X"])).filter isDateTerm =
      ["after:" ++ (fun (n : Int) => toString n) (100 - 7)] ∧
    build_query_parts (fun n => toString n) 100 (some 1) (some 2) (some 7)
        true (some ["X"]) =
      build_query_parts (fun n => toString n) 100 none none (some 7)
        true (some ["X"]) :=
  c3_days_override (fun n => toString n) 100 (some 1) (some 2) 7 true
    (some ["X"]) (by decide)

/-! ## Concrete fixtures used to exercise the orchestrator -/

/-- A concrete date renderer: decimal integer rendering. -/
def fmtC : Int → String := fun n => toString n

/-- A mail-date parser that fails on every header (models
`parsedate_to_datetime` raising on an unparseable Date value). -/
def pdFail : String → Option Int := fun _ => none

/-- A mail-date parser that succeeds everywhere with time 50. -/
def pdFifty : String → Option Int := fun _ => some 50

/-- The identity body decoder. -/
def decId : String → String := fun s => s

/-- A provider get-message operation returning a minimal raw message with
no headers, an inline body `"B"`, snippet `"sn"` and the unread label. -/
def gmSimple : String → RawMsg :=
  fun i => ⟨i, "t", [], .mk none (some "B") none, "sn", ["UNREAD"]⟩

/-- The normalized record that `gmSimple`'s message hydrates to at
fetch time 100. -/
def emSimple (i : String) : Email :=
  ⟨i, "t", "(No subject)", "", "", "", 100, "sn", "B", ["UNREAD"], true⟩

/-- C1: the after-date is dropped by a fetch call that does not supply a
day-count. `fetch_emails(after=5)` (dates rendered by `toString`,
`now = 100`) leaves `days` at its signature default `7`, so the query
passed to list-messages is `is:unread after:93`: it does not contain the
lower-bound term `after:5` derived from the supplied after-date, neither
among the built query parts nor among the space-separated words of the
query string (split on the space character). -/
theorem c1_after_date_dropped :
    (fetch_emails_after_only fmtC pdFifty decId 100 (fun _ _ => [])
        gmSimple 5).query = "is:unread after:93" ∧
    ("after:" ++ fmtC 5) ∉
      build_query_parts fmtC 100 (some 5) none (some 7) true none ∧
    ("after:" ++ fmtC 5).data ∉
      pySplitChar ' '
        ((fetch_emails_after_only fmtC pdFifty decId 100 (fun _ _ => [])
          gmSimple 5).query.data) := by
  refine ⟨rfl, by decide, by decide⟩

/-- C2: a present-but-unparseable Date header aborts the whole fetch.
With a provider returning one message whose Date header the mail-date
library cannot parse (`pdFail`), `fetch_emails` propagates the
`ValueError` raised by `parsedate_to_datetime` instead of falling back to
the current time: there is no try/except around the date parse. -/
theorem c2_bad_date_aborts :
    (fetch_emails fmtC pdFail decId 100 (fun _ _ => ["m1"])
        (fun i => ⟨i, "t1", [("Date", "not a date")], .mk none none none,
          "", []⟩)
        none none (some 7) true none 100).result =
      Except.error PyExc.valueError := by
  rfl

/-! ## The hydration loop, specified -/

theorem hydrateLoop_spec (pd : String → Option Int) (dec : String → String)
    (now : Int) (gm : String → RawMsg) :
    ∀ (ids : List String) (es : List Email),
      (hydrateLoop pd dec now gm ids).1 = Except.ok es →
      (hydrateLoop pd dec now gm ids).2 = ids ∧
      es.length = ids.length ∧
      ∀ (i : Nat) (h1 : i < ids.length) (h2 : i < es.length),
        Except.ok (es.get ⟨i, h2⟩) =
          normalizeMessage pd dec now (gm (ids.get ⟨i, h1⟩)) := by
  intro ids
  induction ids with
  | nil =>
    intro es h
    simp only [hydrateLoop, Except.ok.injEq] at h
    subst h
    refine ⟨rfl, rfl, ?_⟩
    intro i h1 _
    exact absurd h1 (Nat.not_lt_zero i)
  | cons msgId rest ih =>
    intro es h
    cases hn : normalizeMessage pd dec now (gm msgId) with
    | error e =>
      rw [show hydrateLoop pd dec now gm (msgId :: rest) =
          (Except.error e, [msgId]) by simp [hydrateLoop, hn]] at h
      exact absurd h (by simp)
    | ok em =>
      have hunf : hydrateLoop pd dec now gm (msgId :: rest) =
          ((hydrateLoop pd dec now gm rest).1.map (em :: ·),
            msgId :: (hydrateLoop pd dec now gm rest).2) := by
        simp [hydrateLoop, hn]
      rw [hunf] at h
      simp only at h
      cases hr : (hydrateLoop pd dec now gm rest).1 with
      | error e => rw [hr] at h; exact absurd h (by simp [Except.map])
      | ok l =>
        rw [hr] at h
        simp only [Except.map, Except.ok.injEq] at h
        subst h
        obtain ⟨htrace, hlen, hidx⟩ := ih l hr
        refine ⟨by rw [hunf]; simp [htrace], by simp [hlen], ?_⟩
        intro i h1 h2
        cases i with
        | zero => simpa using hn.symm
        | succ j =>
          have h1' : j < rest.length := by simpa using h1
          have h2' : j < l.length := by simpa using h2
          simpa using hidx j h1' h2'

/-- C6: the fetch orchestrator, against every provider. When the
list-messages operation yields no ids the outcome is the empty sequence
with no get-message call at all; and whenever the orchestrator returns a
sequence, it holds exactly one normalized message per listed id, each the
normalization of that id's get-message result, in exactly the provider's
id order. -/
theorem c6_fetch_order :
    ∀ (fmt : Int → String) (pd : String → Option Int) (dec : String → String)
      (now : Int) (lm : String → Int → List String) (gm : String → RawMsg)
      (a b d : Option Int) (u : Bool) (ls : Option (List String)) (mr : Int),
      (lm (build_query fmt now a b d u ls) mr = [] →
        fetch_emails fmt pd dec now lm gm a b d u ls mr =
          ⟨build_query fmt now a b d u ls, [], Except.ok []⟩) ∧
      (∀ es : List Email,
        (fetch_emails fmt pd dec now lm gm a b d u ls mr).result =
          Except.ok es →
        es.length = (lm (build_query fmt now a b d u ls) mr).length ∧
        ∀ (i : Nat) (h1 : i < (lm (build_query fmt now a b d u ls) mr).length)
          (h2 : i < es.length),
          Except.ok (es.get ⟨i, h2⟩) =
            normalizeMessage pd dec now
              (gm ((lm (build_query fmt now a b d u ls) mr).get ⟨i, h1⟩))) := by
  intro fmt pd dec now lm gm a b d u ls mr
  constructor
  · intro h
    simp [fetch_emails, h]
  · intro es h
    by_cases hm : lm (build_query fmt now a b d u ls) mr = []
    · rw [show (fetch_emails fmt pd dec now lm gm a b d u ls mr).result =
          Except.ok [] by simp [fetch_emails, hm]] at h
      simp only [Except.ok.injEq] at h
      subst h
      refine ⟨by simp [hm], ?_⟩
      intro i h1 _
      rw [hm] at h1
      exact absurd h1 (Nat.not_lt_zero i)
    · have hres : (fetch_emails fmt pd dec now lm gm a b d u ls mr).result =
          (hydrateLoop pd dec now gm
            (lm (build_query fmt now a b d u ls) mr)).1 := by
        simp [fetch_emails, List.isEmpty_iff, hm]
      rw [hres] at h
      obtain ⟨_, hlen, hidx⟩ := hydrateLoop_spec pd dec now gm _ es h
      exact ⟨hlen, hidx⟩

/-- Witness for C6: a provider listing no ids returns the empty outcome,
and a provider listing `["x", "y"]` of `gmSimple` messages returns the two
normalized records in order. -/
theorem c6_fetch_order_witness :
    fetch_emails fmtC pdFifty decId 100 (fun _ _ => []) gmSimple
      none none (some 7) true none 100 =
      ⟨"is:unread after:93", [], Except.ok []⟩ ∧
    ([emSimple "x", emSimple "y"].length =
      (["x", "y"] : List String).length) ∧
    Except.ok (([emSimple "x", emSimple "y"].get ⟨0, by decide⟩)) =
      normalizeMessage pdFifty decId 100 (gmSimple "x") :=
  ⟨(c6_fetch_order fmtC pdFifty decId 100 (fun _ _ => []) gmSimple
      none none (some 7) true none 100).1 rfl,
   ((c6_fetch_order fmtC pdFifty decId 100 (fun _ _ => ["x", "y"]) gmSimple
      none none (some 7) true none 100).2 [emSimple "x", emSimple "y"]
      (by rfl)).1,
   ((c6_fetch_order fmtC pdFifty decId 100 (fun _ _ => ["x", "y"]) gmSimple
      none none (some 7) true none 100).2 [emSimple "x", emSimple "y"]
      (by rfl)).2 0 (by decide) (by decide)⟩

/-- C7 counterexample: the round trip fails at the epoch-zero timestamp.
Saving the timestamp whose epoch value is `0` and reading the store back
yields the absent value, not the saved timestamp: the stored `0` is falsy
in `if timestamp:` and falls through to `None`. -/
theorem c7_counterexample :
    get_last_run (save_last_run (fun _ => "") 0) = Except.ok none ∧
    (Except.ok none : Except PyExc (Option ℚ)) ≠ Except.ok (some 0) := by
  refine ⟨rfl, ?_⟩
  simp

/-- C7 (amended): saving a timestamp with nonzero epoch value and then
reading the store returns that timestamp; clearing the store and then
reading returns the absent value, whatever the prior file state; and
reading a store that was never initialized returns the absent value. A
timestamp whose persisted epoch value is exactly `0` reads back as absent
(Python truthiness of the stored number). -/
theorem c7_round_trip :
    (∀ (iso : ℚ → String) (t : ℚ), t ≠ 0 →
      get_last_run (save_last_run iso t) = Except.ok (some t)) ∧
    (∀ fs : FileState, get_last_run (reset_last_run fs) = Except.ok none) ∧
    get_last_run FileState.absent = Except.ok none := by
  refine ⟨?_, ?_, rfl⟩
  · intro iso t ht
    simp [get_last_run, save_last_run, List.lookup, pyTruthyJVal, ht]
  · intro fs
    rfl

/-- Witness for C7 (amended) at concrete inputs. -/
theorem c7_round_trip_witness :
    get_last_run (save_last_run (fun _ => "iso") 1) = Except.ok (some 1) ∧
    get_last_run (reset_last_run (save_last_run (fun _ => "iso") 1)) =
      Except.ok none ∧
    get_last_run FileState.absent = Except.ok none :=
  ⟨c7_round_trip.1 (fun _ => "iso") 1 (by decide),
   c7_round_trip.2.1 (save_last_run (fun _ => "iso") 1),
   c7_round_trip.2.2⟩

/-- C8: not every unreadable or unexpected marker-file content degrades to
the absent value. A file that exists but cannot be opened propagates the
uncaught `OSError`; a file holding the valid JSON object
`{"last_run": "abc"}` — not the expected document, whose `last_run` is a
number — propagates the uncaught `TypeError` raised by
`datetime.fromtimestamp`; only a JSON parse failure is caught and degrades
to the absent value. -/
theorem c8_corrupt_store :
    get_last_run FileState.unreadable = Except.error PyExc.osError ∧
    get_last_run (FileState.doc [("last_run", JVal.jstr "abc")]) =
      Except.error PyExc.typeError ∧
    get_last_run FileState.invalidJson = Except.ok none := by
  exact ⟨rfl, rfl, rfl⟩

/-! ## Termination of the body walk (C10) -/

mutual

/-- The function `get_email_body` with explicit recursion fuel: `none` when the fuel
runs out before the walk finishes. One unit of fuel is consumed each time
the walk descends into a node's child list. -/
def getEmailBodyFuel (dec : String → String) : Nat → Payload → Option String
  | 0, _ => none
  | _ + 1, .mk _ (some d) _ => some (dec d)
  | _ + 1, .mk _ none none => some ""
  | fuel + 1, .mk _ none (some parts) => walkPartsFuel dec fuel parts ""
termination_by fuel _ => (fuel, 0)

/-- The child-list walk with explicit recursion fuel. -/
def walkPartsFuel (dec : String → String) :
    Nat → List Payload → String → Option String
  | _, [], fb => some fb
  | fuel, part :: rest, fb =>
    if part.mimeType.getD "" = "text/plain" ∧ part.bodyData.isSome then
      some (dec (part.bodyData.getD ""))
    else
      let fb' :=
        if part.mimeType.getD "" = "text/html" ∧ part.bodyData.isSome then
          dec (part.bodyData.getD "")
        else fb
      match part.parts with
      | some _ =>
        match getEmailBodyFuel dec fuel part with
        | none => none
        | some nested =>
          if nested ≠ "" then some nested else walkPartsFuel dec fuel rest fb'
      | none => walkPartsFuel dec fuel rest fb'
termination_by fuel l _ => (fuel, l.length + 1)

end

/-- Any fuel bounded below by the payload size (for the node walk) or the
list size (for the child walk) is enough: the fuel-limited walk finishes
and agrees with the total function. -/
theorem fuel_faithful :
    ∀ (fuel : Nat) (dec : String → String),
      (∀ p : Payload, sizeOf p < fuel →
        getEmailBodyFuel dec fuel p = some (get_email_body dec p)) ∧
      (∀ (l : List Payload) (fb : String), sizeOf l ≤ fuel →
        walkPartsFuel dec fuel l fb = some (walkParts dec l fb)) := by
  intro fuel
  induction fuel with
  | zero =>
    intro dec
    constructor
    · intro p hp
      exact absurd hp (Nat.not_lt_zero _)
    · intro l fb hl
      cases l with
      | nil => simp [walkPartsFuel, walkParts]
      | cons p rest =>
        simp at hl
  | succ fuel ih =>
    intro dec
    have hgeb : ∀ p : Payload, sizeOf p < fuel + 1 →
        getEmailBodyFuel dec (fuel + 1) p = some (get_email_body dec p) := by
      intro p hp
      obtain ⟨mt, bd, ps⟩ := p
      cases bd with
      | some d => simp [getEmailBodyFuel, get_email_body]
      | none =>
        cases ps with
        | none => simp [getEmailBodyFuel, get_email_body]
        | some parts =>
          have hsz : sizeOf parts ≤ fuel := by
            simp at hp
            omega
          simp only [getEmailBodyFuel, get_email_body]
          exact (ih dec).2 parts "" hsz
    refine ⟨hgeb, ?_⟩
    intro l
    induction l with
    | nil => intro fb _; simp [walkPartsFuel, walkParts]
    | cons part rest ihl =>
      intro fb hl
      have hp : sizeOf part < fuel + 1 := by
        simp at hl
        omega
      have hrest : sizeOf rest ≤ fuel + 1 := by
        simp at hl
        omega
      by_cases hplain : part.mimeType.getD "" = "text/plain" ∧
          part.bodyData.isSome
      · simp [walkPartsFuel, walkParts, hplain]
      · obtain ⟨mt, bd, ps⟩ := part
        cases ps with
        | none =>
          simp only [walkPartsFuel, walkParts, Payload.parts, if_neg hplain]
          exact ihl _ hrest
        | some l' =>
          simp only [walkPartsFuel, walkParts, Payload.parts, if_neg hplain]
          rw [hgeb _ hp]
          by_cases hne : get_email_body dec (Payload.mk mt bd (some l')) = ""
          · simp only [hne, ne_eq, not_true_eq_false, if_false]
            simpa using ihl _ hrest
          · simp [hne]

/-- C10: the body-decoding walk is total on every finite payload tree:
with fuel one more than the size of the tree, the fuel-limited walk
finishes and returns exactly the string computed by `get_email_body`. -/
theorem c10_get_email_body_total :
    ∀ (dec : String → String) (p : Payload),
      getEmailBodyFuel dec (sizeOf p + 1) p = some (get_email_body dec p) :=
  fun dec p => (fuel_faithful (sizeOf p + 1) dec).1 p (Nat.lt_succ_self _)
